import Mathlib

/-!
Verification development for the HPP_Final_MVP repository.

The repository consists of two Python batch scripts:
  * `scripts/fetch_feeds.py` — an RSS/Atom feed aggregator
    (fetch → relevance-filter → dedup → rank → write JSON + inline HTML);
  * `gmail_monitor.py` — a Gmail digest job
    (auth → search/fetch → filter by checkpoint → digest → send → checkpoint).

This file shallowly embeds the logic of both scripts.  Strings are modelled
as `List Char` (`Str`); Python string operations (`strip`, `split`,
`replace`, `rstrip`, slicing) are translated operation by operation.
`datetime` values are modelled by the `PyDateTime` structure, keeping the
naive/aware (`tzinfo`) distinction, because CPython refuses to compare a
naive datetime with an aware one — a fact that matters for the feed sort.
Unicode-dependent behaviour (`str.lower`, `str.split` on exotic whitespace)
is modelled on the ASCII range, which covers every string in the scripts'
configuration and every claim considered here.
-/

namespace HPP

/-- Strings are modelled as lists of characters. -/
abbrev Str := List Char

/-- Python whitespace (`str.split()` / `str.strip()` separators), ASCII
range: space, tab, newline, carriage return, vertical tab, form feed and
the separator control characters `\x1c`-`\x1f`. -/
def isPySpace (c : Char) : Bool :=
  c == ' ' || c == '\t' || c == '\n' || c == '\r' ||
  c.toNat == 11 || c.toNat == 12 ||
  (28 ≤ c.toNat && c.toNat ≤ 31)

/-- ASCII lowercasing of one character (Python `str.lower` restricted to
the ASCII range, which covers all keywords in the scripts). -/
def lowerChar (c : Char) : Char :=
  if 65 ≤ c.toNat ∧ c.toNat ≤ 90 then Char.ofNat (c.toNat + 32) else c

/-- Python `s.lower()` (ASCII range). -/
def pyLower (s : Str) : Str := s.map lowerChar

/-- Python `s.strip()`: remove leading and trailing whitespace. -/
def pyStrip (s : Str) : Str :=
  ((s.dropWhile isPySpace).reverse.dropWhile isPySpace).reverse

/-- Python `s.rstrip("/")`: remove all trailing `'/'` characters. -/
def rstripSlash (s : Str) : Str :=
  (s.reverse.dropWhile (· == '/')).reverse

/-- `re.sub(r"<[^>]+>", " ", text)` from `strip_html`: replace every
leftmost-match of `<`, one or more non-`>` characters, `>` by a single
space.  A `<` with no later `>`, or immediately followed by `>`, is not
part of a match and is kept. -/
def stripTags : Str → Str
  | [] => []
  | c :: rest =>
    if c = '<' then
      match rest.findIdx? (· == '>') with
      | some j =>
        if 1 ≤ j then ' ' :: stripTags (rest.drop (j + 1))
        else c :: stripTags rest
      | none => c :: stripTags rest
    else c :: stripTags rest
termination_by s => s.length
decreasing_by
  all_goals simp only [List.length_drop, List.length_cons]
  all_goals omega

/-- Python `s.replace(old, new)`: replace every occurrence of `old`
left-to-right, scanning the original string (a replacement is not
re-scanned).  `old` is assumed non-empty, as in the script. -/
def pyReplace (old new : Str) : Str → Str
  | [] => []
  | c :: cs =>
    if old ≠ [] ∧ old.isPrefixOf (c :: cs) then
      new ++ pyReplace old new ((c :: cs).drop old.length)
    else
      c :: pyReplace old new cs
termination_by s => s.length
decreasing_by
  · rename_i h
    simp only [List.length_drop, List.length_cons]
    have : old.length ≠ 0 := fun hl => h.1 (List.length_eq_zero.mp hl)
    omega
  · simp only [List.length_cons]; omega

/-- The six entity replacements of `strip_html`, in source order. -/
def entityPairs : List (Str × Str) :=
  [("&amp;".toList, "&".toList), ("&lt;".toList, "<".toList),
   ("&gt;".toList, ">".toList), ("&quot;".toList, "\"".toList),
   ("&#39;".toList, "\x27".toList), ("&nbsp;".toList, " ".toList)]

/-- Sequential application of the six `str.replace` calls of `strip_html`. -/
def decodeEntities (s : Str) : Str :=
  entityPairs.foldl (fun acc p => pyReplace p.1 p.2 acc) s

/-- Python `s.split()`: split on runs of whitespace, dropping empty pieces. -/
def pySplit : Str → List Str
  | [] => []
  | c :: cs =>
    if isPySpace c then pySplit cs
    else ((c :: cs).takeWhile (fun d => !isPySpace d)) ::
         pySplit ((c :: cs).dropWhile (fun d => !isPySpace d))
termination_by s => s.length
decreasing_by
  · simp only [List.length_cons]; omega
  · rename_i h
    have hc : isPySpace c = false := eq_false_of_ne_true h
    rw [List.dropWhile_cons, hc]
    simp only [Bool.not_false, if_true, List.length_cons]
    exact Nat.lt_succ_of_le (List.dropWhile_sublist _).length_le

/-- `" ".join(ws)`: join word list with single spaces. -/
def joinSpace : List Str → Str
  | [] => []
  | [w] => w
  | w :: ws => w ++ ' ' :: joinSpace ws

/-- `strip_html` from `fetch_feeds.py`: tag removal, entity decoding,
whitespace collapsing (`" ".join(text.split())`). -/
def strip_html (text : Str) : Str :=
  if text = [] then []
  else joinSpace (pySplit (decodeEntities (stripTags text)))

/-- The fixed keyword list `RELEVANCE_KEYWORDS` of `fetch_feeds.py`. -/
def RELEVANCE_KEYWORDS : List Str :=
  ["high pressure processing".toList, " hpp ".toList, "hpp-".toList,
   "hpp:".toList, "hpp—".toList,
   "pascalization".toList, "ultra-high pressure".toList,
   "cold pressed".toList, "hyperbaric".toList,
   "hiperbaric".toList, "quintus".toList, "avure".toList,
   "nc hyperbaric".toList, "stansted fluid".toList,
   "listeria".toList, "salmonella".toList, "e. coli".toList,
   "e.coli".toList, "campylobacter".toList,
   "food recall".toList, "food safety alert".toList,
   "food contamination".toList,
   "contamination recall".toList, "outbreak".toList, "pathogen".toList,
   "foodborne".toList]

/-- Python `sub in s`: `sub` occurs as a contiguous substring of `s`. -/
def strContains : Str → Str → Bool
  | s, sub =>
    if sub.isPrefixOf s then true
    else
      match s with
      | [] => false
      | _ :: cs => strContains cs sub

/-- `is_relevant` from `fetch_feeds.py`: the haystack is
`(title + " " + description).lower()`. -/
def is_relevant (title description : Str) : Bool :=
  let haystack := pyLower (title ++ ' ' :: description)
  RELEVANCE_KEYWORDS.any (fun kw => strContains haystack kw)

/-- An article dictionary as built by `fetch_rss`. -/
structure Article where
  source : Str
  title : Str
  link : Str
  description : Str
  pubDate : Str
  deriving DecidableEq, Repr

/-- Caps from `fetch_feeds.py`. -/
def MAX_RELEVANT_PER_FILTERED_FEED : Nat := 5

/-- A feed entry as extracted from the XML before normalisation: the text
of its title / link / description / date fields (empty where the element
is absent, as `findtext(...) or ""` yields).  For Atom entries, `link` is
the `href` of the selected link element (`rel="alternate"` preferred). -/
structure RawEntry where
  title : Str
  link : Str
  description : Str
  pubDate : Str
  deriving DecidableEq, Repr

/-- One iteration body of the extraction loops of `fetch_rss`: normalise
fields, keep the entry only when both title and link are non-empty and —
for a filtered feed — some keyword matches; a filtered feed stops as soon
as `MAX_RELEVANT_PER_FILTERED_FEED` items are collected.  `acc` is the
number of items already collected. -/
def extractLoop (label : Str) (filtered : Bool) :
    List RawEntry → Nat → List Article
  | [], _ => []
  | e :: es, acc =>
    let title := strip_html e.title
    let link := pyStrip e.link
    let desc := strip_html e.description
    if title ≠ [] ∧ link ≠ [] then
      if !filtered || is_relevant title desc then
        let a : Article :=
          { source := label, title := title, link := link,
            description := desc.take 400, pubDate := e.pubDate }
        if filtered ∧ acc + 1 ≥ MAX_RELEVANT_PER_FILTERED_FEED then [a]
        else a :: extractLoop label filtered es (acc + 1)
      else extractLoop label filtered es acc
    else extractLoop label filtered es acc

/-- `fetch_rss` after the HTTP fetch and XML parse: run the RSS 2.0
extraction on the first `limit` item elements; if it yields nothing, run
the Atom extraction on the first `limit` entry elements. -/
def fetch_rss (label : Str) (filtered : Bool) (limit : Nat)
    (rssItems atomEntries : List RawEntry) : List Article :=
  let items := extractLoop label filtered (rssItems.take limit) 0
  if items = [] then extractLoop label filtered (atomEntries.take limit) 0
  else items

/-- The keep condition of the extraction loops, as a predicate: sanitized
title and stripped link non-empty, plus relevance for a filtered feed. -/
def keepEntry (filtered : Bool) (e : RawEntry) : Bool :=
  !(strip_html e.title).isEmpty && !(pyStrip e.link).isEmpty &&
    (!filtered || is_relevant (strip_html e.title) (strip_html e.description))

/-- The article a kept entry turns into. -/
def mkArticle (label : Str) (e : RawEntry) : Article :=
  { source := label, title := strip_html e.title, link := pyStrip e.link,
    description := (strip_html e.description).take 400, pubDate := e.pubDate }

/-- The dedup key of the merge step:
`a["link"].split("?")[0].rstrip("/")`. -/
def canonKey (link : Str) : Str :=
  rstripSlash (link.takeWhile (· ≠ '?'))

/-- The dedup loop of `fetch_feeds.py`: keep an article when its canonical
key has not been seen yet. -/
def dedupLoop : List Article → List Str → List Article
  | [], _ => []
  | a :: rest, seen =>
    if canonKey a.link ∈ seen then dedupLoop rest seen
    else a :: dedupLoop rest (canonKey a.link :: seen)

/-- Deduplicate all collected articles by canonical link key. -/
def dedupArticles (articles : List Article) : List Article :=
  dedupLoop articles []

/-! ### The date normalizer `parse_date`

`parse_date` tries four `datetime.strptime` patterns in order on
`s.strip()[:31]` and falls back to `datetime.min.replace(tzinfo=utc)`.
The scanners below model CPython's `_strptime` for exactly these four
format strings: format whitespace matches one or more whitespace
characters, names and the literals `T`/trailing `Z` are case-insensitive,
`%z`'s `Z` is case-sensitive, `%Y` is exactly four digits, the
one-or-two-digit numeric directives follow `_strptime`'s regexes, and a
field combination `datetime` would reject (day out of range for the month,
year 0, offset ≥ 24 h) makes the attempt fail, exactly as the raised
`ValueError` is caught by `parse_date`.  `%Z` accepts the names
`UTC`/`GMT` and — as in CPython — produces a *naive* datetime, while `%z`
produces an *aware* one; `%z` offsets follow the full
`[+-]\d\d:?[0-5]\d(:?[0-5]\d(\.\d{1,6})?)?|(?-i:Z)` form with
microsecond resolution and consistent-colon conversion.  (Locale-local
`%Z` names beyond `UTC`/`GMT` are not modelled; no claim depends on
them.) -/

/-- A Gmail message as returned by the per-message detail fetch: parsed
headers plus the provider's `internalDate` in milliseconds (the snippet
extraction is orthogonal to the claims and carried opaquely). -/
structure GmailRaw where
  id : Str
  subject : Str
  sender : Str
  date : Str
  internalDate : Int
  snippet : Str
  deriving DecidableEq, Repr

/-- The message record built by `fetch_message_details`. -/
structure GmailMsg where
  id : Str
  subject : Str
  sender : Str
  date : Str
  epoch : Int
  snippet : Str
  deriving DecidableEq, Repr

/-- `fetch_message_details` on a successfully fetched message:
`epoch = int(internalDate) // 1000` (Python floor division). -/
def fetch_message_details (r : GmailRaw) : GmailMsg :=
  { id := r.id, subject := r.subject, sender := r.sender, date := r.date,
    epoch := Int.fdiv r.internalDate 1000, snippet := r.snippet }

/-- Descending-epoch comparison for `parsed.sort(key=..., reverse=True)`. -/
def geEpoch (a b : GmailMsg) : Bool := decide (b.epoch ≤ a.epoch)

/-- `fetch_matching_messages` after the paged search: each candidate's
detail fetch either failed (`none`, logged and skipped) or produced a raw
message; keep those strictly newer than `since_epoch` and sort newest
first (Python's stable sort with `reverse=True`). -/
def fetch_matching_messages (sinceEpoch : Int)
    (details : List (Option GmailRaw)) : List GmailMsg :=
  let parsed := (details.filterMap (fun o => o.map fetch_message_details)).filter
    (fun m => sinceEpoch < m.epoch)
  parsed.mergeSort geEpoch

/-- Decimal digits of a natural number, most significant first. -/
def natStr (n : Nat) : Str := Nat.toDigits 10 n

/-- Python `str(i)` for an integer. -/
def intStr (i : Int) : Str :=
  if i < 0 then '-' :: natStr (-i).toNat else natStr i.toNat

/-- Digit run with optional single underscores between digits, as
`int(str)` accepts; accumulates into `acc`. -/
def digitsRest (acc : Nat) : Str → Option Nat
  | [] => some acc
  | '_' :: c :: rest =>
    if 48 ≤ c.toNat ∧ c.toNat ≤ 57 then digitsRest (10 * acc + (c.toNat - 48)) rest
    else none
  | c :: rest =>
    if 48 ≤ c.toNat ∧ c.toNat ≤ 57 then digitsRest (10 * acc + (c.toNat - 48)) rest
    else none

/-- A non-empty digit run (with underscores) as `int` parses it. -/
def digitsVal : Str → Option Nat
  | c :: rest =>
    if 48 ≤ c.toNat ∧ c.toNat ≤ 57 then digitsRest (c.toNat - 48) rest
    else none
  | [] => none

/-- Python `int(s)`: strip whitespace, optional sign, digit run. -/
def pyInt? (s : Str) : Option Int :=
  match pyStrip s with
  | '+' :: rest => (digitsVal rest).map (fun n => (n : Int))
  | '-' :: rest => (digitsVal rest).map (fun n => -(n : Int))
  | rest => (digitsVal rest).map (fun n => (n : Int))

/-- `load_last_run_timestamp`: missing file or non-integer content → 0. -/
def load_last_run_timestamp (file : Option Str) : Int :=
  match file with
  | none => 0
  | some s => (pyInt? s).getD 0

/-- `save_last_run_timestamp`: overwrite the file with `str(ts)`. -/
def save_last_run_timestamp (ts : Int) : Str := intStr ts

/-- Command-line arguments of `gmail_monitor.py`. -/
structure GmailArgs where
  auth : Bool
  sinceArg : Option Int
  dryRun : Bool

/-- The external world of one `gmail_monitor.py` run. -/
structure GmailEnv where
  /-- `get_gmail_service()` succeeded (else it calls `sys.exit(1)`). -/
  authOk : Bool
  /-- Prior content of `.last_run_timestamp`, if the file exists. -/
  checkpointFile : Option Str
  /-- `int(datetime.now(tz=utc).timestamp())`, taken at run start. -/
  runStart : Int
  /-- The paged `messages().list` loop completed (an `HttpError` there is
  re-raised and `main` exits 1). -/
  listOk : Bool
  /-- Per-candidate detail-fetch results; `none` = caught `HttpError`. -/
  details : List (Option GmailRaw)
  /-- The send endpoint accepted the digest. -/
  sendOk : Bool

/-- Observable result of a `gmail_monitor.py` run. -/
structure GmailRunResult where
  exitCode : Nat
  checkpointFile : Option Str
  /-- `send_alert` was invoked (whether or not the send succeeded). -/
  sendAttempted : Bool
  /-- The dry-run path printed the plain digest instead. -/
  printedDigest : Bool
  deriving DecidableEq, Repr

/-- `main()` of `gmail_monitor.py`. -/
def gmailMain (args : GmailArgs) (env : GmailEnv) : GmailRunResult :=
  if !env.authOk then
    { exitCode := 1, checkpointFile := env.checkpointFile,
      sendAttempted := false, printedDigest := false }
  else if args.auth then
    { exitCode := 0, checkpointFile := env.checkpointFile,
      sendAttempted := false, printedDigest := false }
  else
    let since := args.sinceArg.getD (load_last_run_timestamp env.checkpointFile)
    if !env.listOk then
      { exitCode := 1, checkpointFile := env.checkpointFile,
        sendAttempted := false, printedDigest := false }
    else
      let messages := fetch_matching_messages since env.details
      let ckpt := if args.dryRun then env.checkpointFile
                  else some (save_last_run_timestamp env.runStart)
      { exitCode := 0, checkpointFile := ckpt,
        sendAttempted := !messages.isEmpty && !args.dryRun,
        printedDigest := !messages.isEmpty && args.dryRun }

/-! ## Helper lemmas -/

theorem isPrefixOf_iff_exists (p l : Str) :
    p.isPrefixOf l = true ↔ ∃ t, l = p ++ t := by
  induction p generalizing l with
  | nil => simp [List.isPrefixOf]
  | cons a as ih =>
    cases l with
    | nil => simp [List.isPrefixOf]
    | cons b bs =>
      simp only [List.isPrefixOf, Bool.and_eq_true, beq_iff_eq, ih,
        List.cons_append, List.cons.injEq]
      constructor
      · rintro ⟨rfl, t, rfl⟩; exact ⟨t, rfl, rfl⟩
      · rintro ⟨t, rfl, rfl⟩; exact ⟨rfl, t, rfl⟩

theorem strContains_iff (s sub : Str) :
    strContains s sub = true ↔ ∃ pre post, s = pre ++ sub ++ post := by
  induction s with
  | nil =>
    rw [strContains]
    constructor
    · intro h
      split at h
      · rename_i hp
        obtain ⟨t, ht⟩ := (isPrefixOf_iff_exists _ _).mp hp
        exact ⟨[], t, ht⟩
      · simp at h
    · rintro ⟨pre, post, h⟩
      have : sub.isPrefixOf ([] : Str) = true := by
        cases pre <;> cases sub <;> simp_all [List.isPrefixOf]
      simp [this]
  | cons c cs ih =>
    rw [strContains]
    constructor
    · intro h
      split at h
      · rename_i hp
        obtain ⟨t, ht⟩ := (isPrefixOf_iff_exists _ _).mp hp
        exact ⟨[], t, ht⟩
      · obtain ⟨pre, post, hp⟩ := ih.mp h
        exact ⟨c :: pre, post, by simp [hp]⟩
    · rintro ⟨pre, post, h⟩
      split
      · rfl
      · rename_i hnp
        cases pre with
        | nil =>
          exact absurd ((isPrefixOf_iff_exists _ _).mpr ⟨post, by simpa using h⟩) hnp
        | cons d ds =>
          simp only [List.cons_append, List.cons.injEq] at h
          exact ih.mpr ⟨ds, post, h.2⟩

theorem dedupLoop_sublist (l : List Article) (seen : List Str) :
    List.Sublist (dedupLoop l seen) l := by
  induction l generalizing seen with
  | nil => simp [dedupLoop]
  | cons a rest ih =>
    rw [dedupLoop]
    split
    · exact (ih _).cons a
    · exact (ih _).cons₂ a

theorem mem_dedupLoop_not_seen {a : Article} :
    ∀ {l : List Article} {seen : List Str}, a ∈ dedupLoop l seen →
      canonKey a.link ∉ seen := by
  intro l
  induction l with
  | nil => intro seen h; simp [dedupLoop] at h
  | cons b rest ih =>
    intro seen h
    rw [dedupLoop] at h
    split at h
    · exact ih h
    · rename_i hb
      rcases List.mem_cons.mp h with rfl | h2
      · exact hb
      · intro hs
        exact ih h2 (List.mem_cons_of_mem _ hs)

theorem dedupLoop_keys_nodup (l : List Article) (seen : List Str) :
    ((dedupLoop l seen).map (fun a => canonKey a.link)).Nodup := by
  induction l generalizing seen with
  | nil => simp [dedupLoop]
  | cons b rest ih =>
    rw [dedupLoop]
    split
    · exact ih _
    · simp only [List.map_cons, List.nodup_cons, List.mem_map]
      refine ⟨?_, ih _⟩
      rintro ⟨a, ha, hk⟩
      exact mem_dedupLoop_not_seen ha (by simp [hk])

theorem dedupLoop_find? (l : List Article) (k : Str) :
    ∀ seen : List Str, k ∉ seen →
      (dedupLoop l seen).find? (fun b => canonKey b.link == k) =
        l.find? (fun b => canonKey b.link == k) := by
  induction l with
  | nil => intro seen _; simp [dedupLoop]
  | cons b rest ih =>
    intro seen hk
    rw [dedupLoop]
    by_cases hb : canonKey b.link ∈ seen
    · rw [if_pos hb]
      have hne : (canonKey b.link == k) = false := by
        simp only [beq_eq_false_iff_ne, ne_eq]
        intro he; exact hk (he ▸ hb)
      rw [ih seen hk, List.find?_cons, hne]
    · rw [if_neg hb]
      rw [List.find?_cons, List.find?_cons]
      by_cases he : canonKey b.link = k
      · rw [show (canonKey b.link == k) = true by simp [he]]
      · rw [show (canonKey b.link == k) = false by simp [he]]
        exact ih _ (by
          intro hs
          rcases List.mem_cons.mp hs with h1 | h1
          · exact he h1.symm
          · exact hk h1)

theorem stripTags_length (s : Str) : (stripTags s).length ≤ s.length := by
  induction s using stripTags.induct with
  | case1 => simp [stripTags]
  | case2 rest j hfind hj ih =>
    simp only [stripTags, if_pos rfl, hfind, hj, if_true, if_false]
    simp only [List.length_cons, List.length_drop] at ih ⊢
    omega
  | case3 rest j hfind hj ih =>
    simp only [stripTags, if_pos rfl, hfind, hj, if_true, if_false]
    simp only [List.length_cons]
    omega
  | case4 rest hfind ih =>
    simp only [stripTags, if_pos rfl, hfind, if_true, if_false]
    simp only [List.length_cons]
    omega
  | case5 c rest hc ih =>
    rw [stripTags, if_neg hc]
    simp only [List.length_cons]
    omega

theorem isPrefixOf_length (p l : Str) (h : p.isPrefixOf l = true) :
    p.length ≤ l.length := by
  obtain ⟨t, rfl⟩ := (isPrefixOf_iff_exists p l).mp h
  simp

theorem pyReplace_length (old new : Str) (hlen : new.length ≤ old.length) :
    ∀ s : Str, (pyReplace old new s).length ≤ s.length := by
  intro s
  induction s using pyReplace.induct old new with
  | case1 => simp [pyReplace]
  | case2 c cs h ih =>
    rw [pyReplace, if_pos h]
    have hp := isPrefixOf_length _ _ h.2
    rw [List.length_append]
    calc new.length + (pyReplace old new ((c :: cs).drop old.length)).length
        ≤ new.length + ((c :: cs).drop old.length).length :=
          Nat.add_le_add_left ih _
      _ = new.length + ((c :: cs).length - old.length) := by
          rw [List.length_drop]
      _ ≤ (c :: cs).length := by
          simp only [List.length_cons] at hp ⊢
          omega
  | case3 c cs h ih =>
    rw [pyReplace, if_neg h]
    simp only [List.length_cons]
    omega

theorem dropWhile_head_not (p : Char → Bool) :
    ∀ (l : List Char) (d : Char) (ds : List Char),
      l.dropWhile p = d :: ds → p d = false := by
  intro l
  induction l with
  | nil => intro d ds h; simp at h
  | cons a l ih =>
    intro d ds h
    rw [List.dropWhile_cons] at h
    split at h
    · exact ih _ _ h
    · rename_i hpa
      cases h
      simpa using hpa

theorem decodeEntities_length (s : Str) :
    (decodeEntities s).length ≤ s.length := by
  simp only [decodeEntities, entityPairs, List.foldl]
  calc (pyReplace "&nbsp;".toList " ".toList
          (pyReplace "&#39;".toList "\x27".toList
            (pyReplace "&quot;".toList "\"".toList
              (pyReplace "&gt;".toList ">".toList
                (pyReplace "&lt;".toList "<".toList
                  (pyReplace "&amp;".toList "&".toList s)))))).length
      ≤ (pyReplace "&#39;".toList "\x27".toList
          (pyReplace "&quot;".toList "\"".toList
            (pyReplace "&gt;".toList ">".toList
              (pyReplace "&lt;".toList "<".toList
                (pyReplace "&amp;".toList "&".toList s))))).length :=
        pyReplace_length _ _ (by decide) _
    _ ≤ (pyReplace "&quot;".toList "\"".toList
          (pyReplace "&gt;".toList ">".toList
            (pyReplace "&lt;".toList "<".toList
              (pyReplace "&amp;".toList "&".toList s)))).length :=
        pyReplace_length _ _ (by decide) _
    _ ≤ (pyReplace "&gt;".toList ">".toList
          (pyReplace "&lt;".toList "<".toList
            (pyReplace "&amp;".toList "&".toList s))).length :=
        pyReplace_length _ _ (by decide) _
    _ ≤ (pyReplace "&lt;".toList "<".toList
          (pyReplace "&amp;".toList "&".toList s)).length :=
        pyReplace_length _ _ (by decide) _
    _ ≤ (pyReplace "&amp;".toList "&".toList s).length :=
        pyReplace_length _ _ (by decide) _
    _ ≤ s.length := pyReplace_length _ _ (by decide) _

theorem joinSpace_pySplit_length (s : Str) :
    (joinSpace (pySplit s)).length ≤ s.length ∧
      (∀ c cs, s = c :: cs → isPySpace c = true → pySplit s ≠ [] →
        (joinSpace (pySplit s)).length + 1 ≤ s.length) := by
  induction s using pySplit.induct with
  | case1 => simp [pySplit, joinSpace]
  | case2 c cs hsp ih =>
    have heq : pySplit (c :: cs) = pySplit cs := by
      rw [pySplit, if_pos hsp]
    constructor
    · rw [heq]
      calc (joinSpace (pySplit cs)).length ≤ cs.length := ih.1
        _ ≤ (c :: cs).length := by simp
    · intro d ds hd _ _
      rw [heq]
      have := ih.1
      simp only [List.length_cons]
      omega
  | case3 c cs hsp ih =>
    have heq : pySplit (c :: cs) =
        ((c :: cs).takeWhile (fun d => !isPySpace d)) ::
          pySplit ((c :: cs).dropWhile (fun d => !isPySpace d)) := by
      rw [pySplit, if_neg hsp]
    have hsplit : ((c :: cs).takeWhile (fun d => !isPySpace d)).length +
        ((c :: cs).dropWhile (fun d => !isPySpace d)).length =
          (c :: cs).length := by
      rw [← List.length_append, List.takeWhile_append_dropWhile]
    constructor
    · rw [heq]
      cases hrest : pySplit ((c :: cs).dropWhile (fun d => !isPySpace d)) with
      | nil =>
        simp only [joinSpace]
        calc ((c :: cs).takeWhile (fun d => !isPySpace d)).length
            ≤ (c :: cs).length := by omega
      | cons w ws =>
        have hdrop_ne : (c :: cs).dropWhile (fun d => !isPySpace d) ≠ [] := by
          intro hnil
          rw [hnil] at hrest
          simp [pySplit] at hrest
        obtain ⟨d, ds, hds⟩ := List.exists_cons_of_ne_nil hdrop_ne
        have hdsp : isPySpace d = true := by
          have := dropWhile_head_not _ _ _ _ hds
          simpa using this
        have h2 := ih.2 d ds hds hdsp (by rw [hrest]; simp)
        rw [hrest] at h2
        have hj : (joinSpace (((c :: cs).takeWhile (fun d => !isPySpace d)) ::
            w :: ws)).length =
            ((c :: cs).takeWhile (fun d => !isPySpace d)).length + 1 +
              (joinSpace (w :: ws)).length := by
          simp [joinSpace]
          omega
        rw [hj]
        omega
    · intro d ds hd hdp _
      cases hd
      rw [hdp] at hsp
      simp at hsp

/-- C8: for every input string, the output of the text sanitizer
`strip_html` — tag removal, entity decoding, whitespace collapsing and
trimming — is never longer than the input: each tag match (at least
three characters) becomes one space, each of the six entity replacements
shortens the text, and rejoining the whitespace-split words with single
spaces never exceeds the original length. -/
theorem C8_strip_html_length (text : Str) :
    (strip_html text).length ≤ text.length := by
  unfold strip_html
  split
  · simp
  · calc (joinSpace (pySplit (decodeEntities (stripTags text)))).length
        ≤ (decodeEntities (stripTags text)).length :=
          (joinSpace_pySplit_length _).1
      _ ≤ (stripTags text).length := decodeEntities_length _
      _ ≤ text.length := stripTags_length _

theorem extractLoop_unfiltered (label : Str) (es : List RawEntry) (acc : Nat) :
    extractLoop label false es acc =
      (es.filter (keepEntry false)).map (mkArticle label) := by
  induction es generalizing acc with
  | nil => simp [extractLoop]
  | cons e es ih =>
    by_cases h1 : strip_html e.title = []
    · simp [extractLoop, List.filter_cons, keepEntry, h1, ih]
    · by_cases h2 : pyStrip e.link = []
      · simp [extractLoop, List.filter_cons, keepEntry, h1, h2, ih]
      · simp [extractLoop, List.filter_cons, keepEntry, mkArticle, h1, h2, ih]

theorem extractLoop_filtered (label : Str) (es : List RawEntry) :
    ∀ acc : Nat, acc < MAX_RELEVANT_PER_FILTERED_FEED →
      extractLoop label true es acc =
        (((es.filter (keepEntry true)).map (mkArticle label)).take
          (MAX_RELEVANT_PER_FILTERED_FEED - acc)) := by
  induction es with
  | nil => intro acc _; simp [extractLoop]
  | cons e es ih =>
    intro acc hacc
    by_cases h1 : strip_html e.title = []
    · simp [extractLoop, List.filter_cons, keepEntry, h1, ih acc hacc]
    · by_cases h2 : pyStrip e.link = []
      · simp [extractLoop, List.filter_cons, keepEntry, h1, h2, ih acc hacc]
      · by_cases h3 : is_relevant (strip_html e.title) (strip_html e.description) = true
        · by_cases h4 : MAX_RELEVANT_PER_FILTERED_FEED ≤ acc + 1
          · have hacc4 : acc = 4 := by
              simp [MAX_RELEVANT_PER_FILTERED_FEED] at hacc h4; omega
            subst hacc4
            simp [extractLoop, List.filter_cons, keepEntry, mkArticle, h1, h2, h3,
              MAX_RELEVANT_PER_FILTERED_FEED]
          · have hstep : MAX_RELEVANT_PER_FILTERED_FEED - acc =
                (MAX_RELEVANT_PER_FILTERED_FEED - (acc + 1)) + 1 := by
              simp [MAX_RELEVANT_PER_FILTERED_FEED] at h4 ⊢; omega
            rw [List.filter_cons]
            simp only [keepEntry, h1, h2, h3]
            simp only [List.isEmpty_eq_false, ne_eq, h1, h2, not_false_iff,
              Bool.and_self, Bool.true_and, Bool.or_true, Bool.and_true]
            rw [extractLoop]
            simp only [ne_eq, h1, not_false_iff, h2, and_self, if_true, h3,
              Bool.or_true, if_pos trivial]
            rw [if_neg (by simp [MAX_RELEVANT_PER_FILTERED_FEED] at h4 ⊢; omega),
              ih (acc + 1) (by omega), hstep]
            rw [if_pos (by simp [h1, h2]), List.map_cons, List.take_succ_cons]
            simp [mkArticle]
        · simp [extractLoop, List.filter_cons, keepEntry, h1, h2, h3, ih acc hacc]

/-! ## Claims -/

/-- C5: the merge dedup key is the link with any query string removed
(`split("?")[0]`) and trailing path separators removed (`rstrip("/")`),
and only the first occurrence of each key survives, in collection order:
the dedup output is a sublist of its input whose keys are pairwise
distinct, and for every key the article found in the output is the first
article with that key in the input.  In particular
`https://x.com/a?utm=1` and `https://x.com/a/` share one key, and of two
such articles only the first-seen survives. -/
theorem C5_dedup_first_occurrence :
    canonKey "https://x.com/a?utm=1".toList = canonKey "https://x.com/a/".toList ∧
    dedupArticles
      [{ source := "F1".toList, title := "T1".toList,
         link := "https://x.com/a?utm=1".toList, description := [], pubDate := [] },
       { source := "F2".toList, title := "T2".toList,
         link := "https://x.com/a/".toList, description := [], pubDate := [] }] =
      [{ source := "F1".toList, title := "T1".toList,
         link := "https://x.com/a?utm=1".toList, description := [], pubDate := [] }] ∧
    (∀ l : List Article, List.Sublist (dedupArticles l) l) ∧
    (∀ l : List Article, ((dedupArticles l).map (fun a => canonKey a.link)).Nodup) ∧
    (∀ (l : List Article) (k : Str),
      (dedupArticles l).find? (fun b => canonKey b.link == k) =
        l.find? (fun b => canonKey b.link == k)) := by
  refine ⟨by decide, by decide, ?_, ?_, ?_⟩
  · intro l; exact dedupLoop_sublist l []
  · intro l; exact dedupLoop_keys_nodup l []
  · intro l k; exact dedupLoop_find? l k [] (by simp)

/-- C3 counterexample: an RSS entry with a non-empty title but an empty
link is discarded by `fetch_rss` (the code requires `title and link`,
both non-empty), while the claim says an entry with at least one of a
non-empty title or a non-empty link is kept: with an unfiltered feed,
limit 10 and a single entry titled `A` with no link, the result is empty
although the sanitized title `A` is non-empty and no cap or relevance
filter is in play. -/
theorem C3_counterexample :
    fetch_rss "L".toList false 10
      [{ title := "A".toList, link := [], description := [], pubDate := [] }]
      [] = [] ∧
    strip_html "A".toList = "A".toList := by
  constructor
  · simp [fetch_rss, extractLoop, strip_html, stripTags, decodeEntities,
      entityPairs, pyReplace, pySplit, joinSpace, pyStrip, isPySpace]
  · simp [strip_html, stripTags, decodeEntities, entityPairs, pyReplace,
      pySplit, joinSpace, isPySpace]

/-- C3 (amended: an extracted entry is kept only when BOTH its sanitized
title and its stripped link are non-empty; an entry missing either is
discarded): every article produced by the extraction loop has a
non-empty title and a non-empty link, and for an unfiltered feed the
result is exactly the entries with both fields non-empty (`keepEntry
false`), mapped to articles, with the RSS branch falling back to Atom
when it yields nothing. -/
theorem C3_kept_needs_both :
    (∀ (label : Str) (filtered : Bool) (es : List RawEntry) (acc : Nat)
        (a : Article), a ∈ extractLoop label filtered es acc →
          a.title ≠ [] ∧ a.link ≠ []) ∧
    (∀ (label : Str) (limit : Nat) (rss atom : List RawEntry),
        fetch_rss label false limit rss atom =
          (if (rss.take limit).filter (keepEntry false) = []
           then ((atom.take limit).filter (keepEntry false)).map (mkArticle label)
           else ((rss.take limit).filter (keepEntry false)).map (mkArticle label))) := by
  constructor
  · intro label filtered es
    induction es with
    | nil => intro acc a h; simp [extractLoop] at h
    | cons e es ih =>
      intro acc a h
      simp only [extractLoop] at h
      split at h
      · rename_i hcl
        split at h
        · split at h
          · simp only [List.mem_singleton] at h
            subst h
            exact ⟨hcl.1, hcl.2⟩
          · rcases List.mem_cons.mp h with rfl | h2
            · exact ⟨hcl.1, hcl.2⟩
            · exact ih _ _ h2
        · exact ih _ _ h
      · exact ih _ _ h
  · intro label limit rss atom
    unfold fetch_rss
    rw [extractLoop_unfiltered, extractLoop_unfiltered]
    by_cases hc : (rss.take limit).filter (keepEntry false) = []
    · simp [hc]
    · simp [hc]

/-- C10: a feed flagged as filtered yields at most
`MAX_RELEVANT_PER_FILTERED_FEED` (5) articles whatever its fetch limit —
the loop stops as soon as 5 relevant entries are collected, so the
result is the first 5 kept entries of the scanned window (in both the
RSS branch and the Atom fallback) — while an unfiltered feed is bounded
only by its per-feed fetch limit. -/
theorem C10_filtered_cap :
    (∀ (label : Str) (limit : Nat) (rss atom : List RawEntry),
        (fetch_rss label true limit rss atom).length ≤
          MAX_RELEVANT_PER_FILTERED_FEED) ∧
    (∀ (label : Str) (limit : Nat) (rss atom : List RawEntry),
        fetch_rss label true limit rss atom =
          (if (rss.take limit).filter (keepEntry true) = []
           then (((atom.take limit).filter (keepEntry true)).map
              (mkArticle label)).take MAX_RELEVANT_PER_FILTERED_FEED
           else (((rss.take limit).filter (keepEntry true)).map
              (mkArticle label)).take MAX_RELEVANT_PER_FILTERED_FEED)) ∧
    (∀ (label : Str) (limit : Nat) (rss atom : List RawEntry),
        (fetch_rss label false limit rss atom).length ≤ limit) := by
  have hchar : ∀ (label : Str) (limit : Nat) (rss atom : List RawEntry),
      fetch_rss label true limit rss atom =
        (if (rss.take limit).filter (keepEntry true) = []
         then (((atom.take limit).filter (keepEntry true)).map
            (mkArticle label)).take MAX_RELEVANT_PER_FILTERED_FEED
         else (((rss.take limit).filter (keepEntry true)).map
            (mkArticle label)).take MAX_RELEVANT_PER_FILTERED_FEED) := by
    intro label limit rss atom
    unfold fetch_rss
    rw [extractLoop_filtered label _ 0 (by simp [MAX_RELEVANT_PER_FILTERED_FEED]),
      extractLoop_filtered label _ 0 (by simp [MAX_RELEVANT_PER_FILTERED_FEED])]
    simp only [Nat.sub_zero]
    by_cases hc : (rss.take limit).filter (keepEntry true) = []
    · simp [hc]
    · rw [if_neg (by simp [List.take_eq_nil_iff, hc, MAX_RELEVANT_PER_FILTERED_FEED]),
        if_neg hc]
  refine ⟨?_, hchar, ?_⟩
  · intro label limit rss atom
    rw [hchar]
    split <;> exact List.length_take_le _ _
  · intro label limit rss atom
    unfold fetch_rss
    rw [extractLoop_unfiltered, extractLoop_unfiltered]
    by_cases hc : (rss.take limit).filter (keepEntry false) = []
    · simp only [hc, List.map_nil, if_pos rfl]
      calc (((atom.take limit).filter (keepEntry false)).map
            (mkArticle label)).length
          = ((atom.take limit).filter (keepEntry false)).length := by
            rw [List.length_map]
        _ ≤ (atom.take limit).length := List.length_filter_le _ _
        _ ≤ limit := List.length_take_le _ _
    · rw [if_neg (by simp [hc])]
      calc (((rss.take limit).filter (keepEntry false)).map
            (mkArticle label)).length
          = ((rss.take limit).filter (keepEntry false)).length := by
            rw [List.length_map]
        _ ≤ (rss.take limit).length := List.length_filter_le _ _
        _ ≤ limit := List.length_take_le _ _

/-- C2: a non-rehearsal run of the digest job that performs the digest
pipeline (not `--auth`) and hits no fatal error (authentication and the
paged search succeed) ends with exit code 0 and with the checkpoint file
containing exactly `str(run_start_epoch)` — the detail results, the
message count (including zero) and the send outcome are universally
quantified here, so the checkpoint is written even with no qualifying
messages or a failed send; a rehearsal (dry-run) invocation leaves the
prior checkpoint file content unchanged. -/
theorem C2_checkpoint :
    ∀ (args : GmailArgs) (env : GmailEnv),
      env.authOk = true → args.auth = false → env.listOk = true →
      ((args.dryRun = false →
          (gmailMain args env).exitCode = 0 ∧
          (gmailMain args env).checkpointFile = some (intStr env.runStart)) ∧
       (args.dryRun = true →
          (gmailMain args env).checkpointFile = env.checkpointFile)) := by
  intro args env hauth hjob hlist
  constructor <;> intro hdry <;>
    simp [gmailMain, hauth, hjob, hlist, hdry, save_last_run_timestamp]

/-- C2 witness: with authentication and search succeeding, no `--auth`,
no qualifying messages and a failing send endpoint, a non-rehearsal run
at start epoch 1700000000 exits 0 and writes that epoch to the
checkpoint, and a rehearsal run keeps the prior content `"42"`. -/
theorem C2_checkpoint_witness :
    ((gmailMain { auth := false, sinceArg := none, dryRun := false }
        { authOk := true, checkpointFile := some "42".toList,
          runStart := 1700000000, listOk := true, details := [],
          sendOk := false }).exitCode = 0 ∧
      (gmailMain { auth := false, sinceArg := none, dryRun := false }
        { authOk := true, checkpointFile := some "42".toList,
          runStart := 1700000000, listOk := true, details := [],
          sendOk := false }).checkpointFile = some (intStr 1700000000)) ∧
    (gmailMain { auth := false, sinceArg := none, dryRun := true }
        { authOk := true, checkpointFile := some "42".toList,
          runStart := 1700000000, listOk := true, details := [],
          sendOk := false }).checkpointFile = some "42".toList :=
  ⟨(C2_checkpoint _ _ rfl rfl rfl).1 rfl, (C2_checkpoint _ _ rfl rfl rfl).2 rfl⟩

/-- C4: a message enters the result of the search-and-fetch step iff its
detail fetch succeeded and its derived epoch (`internalDate // 1000`) is
strictly greater than the since-checkpoint — equal-or-older messages are
discarded — and the result is sorted by epoch in descending
(newest-first) order. -/
theorem C4_strictly_newer_sorted :
    (∀ (since : Int) (details : List (Option GmailRaw)) (m : GmailMsg),
      m ∈ fetch_matching_messages since details ↔
        m ∈ details.filterMap (fun o => o.map fetch_message_details) ∧
          since < m.epoch) ∧
    (∀ (since : Int) (details : List (Option GmailRaw)),
      (fetch_matching_messages since details).Pairwise
        (fun a b => b.epoch ≤ a.epoch)) := by
  constructor
  · intro since details m
    unfold fetch_matching_messages
    rw [List.mem_mergeSort, List.mem_filter]
    simp
  · intro since details
    unfold fetch_matching_messages
    have htrans : ∀ a b c : GmailMsg, geEpoch a b → geEpoch b c → geEpoch a c := by
      intro a b c hab hbc
      simp only [geEpoch, decide_eq_true_eq] at hab hbc ⊢
      omega
    have htotal : ∀ a b : GmailMsg, geEpoch a b || geEpoch b a := by
      intro a b
      simp only [geEpoch, Bool.or_eq_true, decide_eq_true_eq]
      exact Int.le_total b.epoch a.epoch
    have h := List.sorted_mergeSort htrans htotal
      ((details.filterMap (fun o => o.map fetch_message_details)).filter
        (fun m => decide (since < m.epoch)))
    exact h.imp (fun hab => by simpa [geEpoch] using hab)

/-- C9 counterexample: the claim reads the haystack as the lowercased
plain concatenation of title and description, but the code inserts a
space between them; with title `"see hpp"` and description `"today"` the
code returns `true` (the keyword `" hpp "` matches across the inserted
space) while no keyword occurs in the lowercased plain concatenation
`"see hpptoday"`. -/
theorem C9_counterexample :
    is_relevant "see hpp".toList "today".toList = true ∧
    ¬ (∃ kw, kw ∈ RELEVANCE_KEYWORDS ∧
        ∃ pre post, pyLower ("see hpp".toList ++ "today".toList) = pre ++ kw ++ post) := by
  constructor
  · decide
  · rintro ⟨kw, hmem, hocc⟩
    have hc : strContains (pyLower ("see hpp".toList ++ "today".toList)) kw = true :=
      (strContains_iff _ _).mpr hocc
    have hall : RELEVANCE_KEYWORDS.all
        (fun kw => !strContains (pyLower ("see hpp".toList ++ "today".toList)) kw) = true := by
      decide
    have h2 := List.all_eq_true.mp hall kw hmem
    simp only [Bool.not_eq_true'] at h2
    rw [hc] at h2
    simp at h2

/-- C9 (amended: the haystack is the lowercased concatenation of title, a
single separating space, and description): `is_relevant` returns `true`
iff some keyword of the fixed list occurs as a substring of that
haystack; `is_relevant "Listeria outbreak" ""` is `true` and
`is_relevant "Quarterly earnings" ""` is `false`. -/
theorem C9_is_relevant_iff :
    (∀ title description : Str,
      is_relevant title description = true ↔
        ∃ kw, kw ∈ RELEVANCE_KEYWORDS ∧
          ∃ pre post, pyLower (title ++ ' ' :: description) = pre ++ kw ++ post) ∧
    is_relevant "Listeria outbreak".toList "".toList = true ∧
    is_relevant "Quarterly earnings".toList "".toList = false := by
  refine ⟨fun title description => ?_, by decide, by decide⟩
  unfold is_relevant
  rw [List.any_eq_true]
  constructor
  · rintro ⟨kw, hmem, hc⟩
    exact ⟨kw, hmem, (strContains_iff _ _).mp hc⟩
  · rintro ⟨kw, hmem, hocc⟩
    exact ⟨kw, hmem, (strContains_iff _ _).mpr hocc⟩

end HPP
